import Mathlib

/-!
Shallow embedding of the player-progression repository (`main.py`).

The store is modelled as explicit lists of rows (one list per table), in
insertion order.  Timestamps are pairs of a calendar date and a tick within
the day, so that `datetime.date()` comparison is the `date` projection.
Opaque UUID identifiers are modelled as naturals.  Integer columns are `Int`.

The three stateful operations (`Player.login`, `add_boost`,
`give_prizes_for_level`) and the export projection
(`export_player_levels_to_csv`) are translated line by line from the source.
Schema-declared constraints (the FOREIGN KEY on `player_boosts.boost_id` and
the CHECK `amount >= 0`), which the database applies when the session is
flushed, are folded into `add_boost` as `Except` failures, matching the
spec's error taxonomy (NotFound / ConstraintViolation).
-/

namespace Game

/-- UTC timestamp: `date` is the calendar date (what `datetime.date()`
returns, totally ordered day by day) and `tick` an instant within the day. -/
structure DateTime where
  date : Nat
  tick : Nat
deriving DecidableEq, Repr

/-- Enumeration `BoostType` from the source, a closed set of three variants. -/
inductive BoostType where
  | DOUBLE_POINTS
  | SPEED
  | SHIELD
deriving DecidableEq, Repr

/-- Fixed description attached to each `BoostType` variant. -/
def BoostType.description : BoostType → String
  | .DOUBLE_POINTS => "x2 к очкам"
  | .SPEED => "ускорение"
  | .SHIELD => "щит от потерь"

/-- Row of table `players`: id, nullable first/last login, points. -/
structure Player where
  id : Nat
  first_login : Option DateTime
  last_login : Option DateTime
  points : Int
deriving DecidableEq, Repr

/-- Row of catalog table `boosts`. -/
structure Boost where
  id : Nat
  type : BoostType
  description : String
deriving DecidableEq, Repr

/-- `Boost.create`: catalog entry with the automatic description. -/
def Boost.create (id : Nat) (boost_type : BoostType) : Boost :=
  { id := id, type := boost_type, description := boost_type.description }

/-- Row of table `player_boosts`, composite key (player_id, boost_id). -/
structure PlayerBoost where
  player_id : Nat
  boost_id : Nat
  amount : Int
  created_at : DateTime
deriving DecidableEq, Repr

/-- Row of catalog table `levels`. -/
structure Level where
  id : Nat
  title : String
  order : Int
deriving DecidableEq, Repr

/-- Row of catalog table `prizes`. -/
structure Prize where
  id : Nat
  title : String
deriving DecidableEq, Repr

/-- Row of table `player_levels`, composite key (player_id, level_id);
`completed` is a nullable timestamp, null meaning not completed. -/
structure PlayerLevel where
  player_id : Nat
  level_id : Nat
  completed : Option DateTime
  score : Int
deriving DecidableEq, Repr

/-- Row of association table `level_prizes`, composite key (level_id, prize_id). -/
structure LevelPrize where
  level_id : Nat
  prize_id : Nat
deriving DecidableEq, Repr

/-- Row of table `player_prizes`, composite key (player_id, prize_id). -/
structure PlayerPrize where
  player_id : Nat
  prize_id : Nat
  received_at : DateTime
deriving DecidableEq, Repr

/-- The whole entity store: one list per table, rows in insertion order
(`session.add` appends; scans return rows in this order). -/
structure Store where
  players : List Player
  boosts : List Boost
  levels : List Level
  prizes : List Prize
  playerBoosts : List PlayerBoost
  playerLevels : List PlayerLevel
  levelPrizes : List LevelPrize
  playerPrizes : List PlayerPrize
deriving DecidableEq, Repr

/-- Error taxonomy of the progression engine. -/
inductive DbError where
  | notFound
  | constraintViolation
deriving DecidableEq, Repr

/-- `if not self.last_login or self.last_login.date() < now.date()`:
a daily bonus is due when `last_login` is unset or strictly before today. -/
def newDay (last : Option DateTime) (now : DateTime) : Bool :=
  match last with
  | none => true
  | some t => decide (t.date < now.date)

/-- `Player.login` from the source: set `first_login` if unset; add 10
points when the last login is unset or on an earlier calendar date;
always refresh `last_login` to now. -/
def Player.login (p : Player) (now : DateTime) : Player :=
  let p1 := if p.first_login.isNone then { p with first_login := some now } else p
  let p2 := if newDay p1.last_login now then { p1 with points := p1.points + 10 } else p1
  { p2 with last_login := some now }

/-- Store-level view of `login` applied to the player with the given id
(the method mutates one `players` row in place). -/
def loginStore (s : Store) (playerId : Nat) (now : DateTime) : Store :=
  { s with players := s.players.map (fun p => if p.id == playerId then p.login now else p) }

/-- `Player.add_boost` from the source, together with the flush of the
session: `session.get(PlayerBoost, (self.id, boost_id))` is the composite-key
lookup; on a hit the row's `amount` is incremented in place, on a miss a new
row `(player_id, boost_id, amount, created_at := now)` is appended.  The
database then enforces the declared FOREIGN KEY to `boosts.id` (NotFound on
a dangling insert) and the CHECK constraint `amount >= 0`
(ConstraintViolation). -/
def add_boost (s : Store) (playerId boostId : Nat) (amount : Int) (now : DateTime) :
    Except DbError Store :=
  match s.playerBoosts.find? (fun pb => pb.player_id == playerId && pb.boost_id == boostId) with
  | some pb =>
      if pb.amount + amount < 0 then .error .constraintViolation
      else .ok { s with playerBoosts := s.playerBoosts.map (fun r =>
        if r.player_id == playerId && r.boost_id == boostId then
          { r with amount := r.amount + amount }
        else r) }
  | none =>
      if s.boosts.any (fun b => b.id == boostId) then
        if amount < 0 then .error .constraintViolation
        else .ok { s with playerBoosts := s.playerBoosts ++
          [{ player_id := playerId, boost_id := boostId, amount := amount, created_at := now }] }
      else .error .notFound

/-- The `exists().where(PlayerPrize.player_id == self.id,
PlayerPrize.prize_id == prize.id).select()` check from
`give_prizes_for_level`. -/
def holdsPrize (s : Store) (playerId prizeId : Nat) : Bool :=
  s.playerPrizes.any (fun pp => pp.player_id == playerId && pp.prize_id == prizeId)

/-- `select(Prize).join(LevelPrize).where(LevelPrize.level_id == level_id)`:
the prizes associated with a level via `LevelPrize`, in association insertion
order; a dangling `prize_id` contributes no row (inner join). -/
def levelPrizeList (s : Store) (levelId : Nat) : List Prize :=
  (s.levelPrizes.filter (fun lp => lp.level_id == levelId)).filterMap
    (fun lp => s.prizes.find? (fun pz => pz.id == lp.prize_id))

/-- Body of the `for prize in prizes` loop: skip if the player already holds
the prize, otherwise append a `PlayerPrize` row received now. -/
def grantPrize (playerId : Nat) (now : DateTime) (s : Store) (pz : Prize) : Store :=
  if holdsPrize s playerId pz.id then s
  else { s with playerPrizes := s.playerPrizes ++
    [{ player_id := playerId, prize_id := pz.id, received_at := now }] }

/-- `Player.give_prizes_for_level` from the source: look up the
`PlayerLevel` row by composite key; return unchanged if absent or not
completed; otherwise grant each associated prize not already held. -/
def give_prizes_for_level (s : Store) (playerId levelId : Nat) (now : DateTime) : Store :=
  match s.playerLevels.find? (fun pl => pl.player_id == playerId && pl.level_id == levelId) with
  | none => s
  | some pl =>
      if pl.completed.isNone then s
      else (levelPrizeList s levelId).foldl (grantPrize playerId now) s

/-- One data row of the CSV export. -/
structure ExportRow where
  player_id : Nat
  level_title : String
  completed : Bool
  prize_title : String
deriving DecidableEq, Repr

/-- Loop body stream of `export_player_levels_to_csv`: walks the given
`PlayerLevel` rows in order.  A row whose `level_id` matches no `Level` is
dropped by the inner join `query(PlayerLevel).join(PlayerLevel.level)`; for
a kept row, `completed` is `bool(pl.completed)` and `prize_title` comes from
`pl.level.prizes[0].prize.title` when the level has associated `LevelPrize`
rows, else it is the empty string.  Navigating `.prize` on a dangling
`prize_id` yields `None` in Python and `.title` then raises, modelled as the
`none` outcome aborting the stream. -/
def exportRows (s : Store) : List PlayerLevel → Option (List ExportRow)
  | [] => some []
  | pl :: rest =>
      match s.levels.find? (fun lvl => lvl.id == pl.level_id) with
      | none => exportRows s rest
      | some lvl =>
          match (s.levelPrizes.filter (fun lp => lp.level_id == lvl.id)).head? with
          | none =>
              (exportRows s rest).map (fun rows =>
                { player_id := pl.player_id, level_title := lvl.title,
                  completed := pl.completed.isSome, prize_title := "" } :: rows)
          | some lp =>
              match s.prizes.find? (fun pz => pz.id == lp.prize_id) with
              | none => none
              | some pz =>
                  (exportRows s rest).map (fun rows =>
                    { player_id := pl.player_id, level_title := lvl.title,
                      completed := pl.completed.isSome, prize_title := pz.title } :: rows)

/-- `export_player_levels_to_csv` from the source, as the stream of data
rows it writes after the header: the loop over all `PlayerLevel` rows in
scan order. -/
def export_player_levels_to_csv (s : Store) : Option (List ExportRow) :=
  exportRows s s.playerLevels

/-- The export row the projection produces for one `PlayerLevel` row, used
to state what the export computes on well-formed stores. -/
def exportRowOf (s : Store) (pl : PlayerLevel) : ExportRow :=
  { player_id := pl.player_id
    level_title := ((s.levels.find? (fun lvl => lvl.id == pl.level_id)).map Level.title).getD ""
    completed := pl.completed.isSome
    prize_title :=
      match (s.levelPrizes.filter (fun lp => lp.level_id == pl.level_id)).head? with
      | none => ""
      | some lp => ((s.prizes.find? (fun pz => pz.id == lp.prize_id)).map Prize.title).getD "" }

/-- Well-formedness of a store: the primary-key uniqueness and foreign-key
constraints declared by the schema that the claims rely on. -/
structure WF (s : Store) : Prop where
  prizes_uniq : s.prizes.Pairwise (fun a b => a.id ≠ b.id)
  pb_uniq : s.playerBoosts.Pairwise (fun a b => a.player_id ≠ b.player_id ∨ a.boost_id ≠ b.boost_id)
  lp_uniq : s.levelPrizes.Pairwise (fun a b => a.level_id ≠ b.level_id ∨ a.prize_id ≠ b.prize_id)
  pb_boost_fk : ∀ pb ∈ s.playerBoosts, ∃ b ∈ s.boosts, b.id = pb.boost_id
  pl_level_fk : ∀ pl ∈ s.playerLevels, ∃ lvl ∈ s.levels, lvl.id = pl.level_id
  lp_prize_fk : ∀ lp ∈ s.levelPrizes, ∃ pz ∈ s.prizes, pz.id = lp.prize_id

/-- The invariants of claim C8: non-negative boost amounts and level scores,
and at most one `PlayerBoost` row per (player, boost) pair. -/
def Inv (s : Store) : Prop :=
  (∀ pb ∈ s.playerBoosts, 0 ≤ pb.amount) ∧
  (∀ pl ∈ s.playerLevels, 0 ≤ pl.score) ∧
  s.playerBoosts.Pairwise (fun a b => a.player_id ≠ b.player_id ∨ a.boost_id ≠ b.boost_id)

/-- Reachability by the three progression-engine operations, with
`add_boost` restricted to non-negative amounts as in claim C8. -/
inductive Reachable : Store → Store → Prop where
  | refl (s : Store) : Reachable s s
  | step_login (s0 s : Store) (pid : Nat) (now : DateTime) :
      Reachable s0 s → Reachable s0 (loginStore s pid now)
  | step_add_boost (s0 s s2 : Store) (pid bid : Nat) (amount : Int) (now : DateTime) :
      Reachable s0 s → 0 ≤ amount → add_boost s pid bid amount now = .ok s2 →
      Reachable s0 s2
  | step_grant (s0 s : Store) (pid lid : Nat) (now : DateTime) :
      Reachable s0 s → Reachable s0 (give_prizes_for_level s pid lid now)

/-- Concrete store used to witness the prize-grant claims: one player, one
level with two associated prizes, the level completed. -/
def grantStore : Store where
  players := [⟨1, none, none, 0⟩]
  boosts := []
  levels := [⟨1, "L", 0⟩]
  prizes := [⟨1, "P1"⟩, ⟨2, "P2"⟩]
  playerBoosts := []
  playerLevels := [⟨1, 1, some ⟨0, 0⟩, 100⟩]
  levelPrizes := [⟨1, 1⟩, ⟨1, 2⟩]
  playerPrizes := []

/-- Concrete store whose catalog holds a prize with an empty title,
attached to the one level the player has a row for. -/
def emptyTitleStore : Store where
  players := [⟨1, none, none, 0⟩]
  boosts := []
  levels := [⟨1, "L", 0⟩]
  prizes := [⟨1, ""⟩]
  playerBoosts := []
  playerLevels := [⟨1, 1, none, 0⟩]
  levelPrizes := [⟨1, 1⟩]
  playerPrizes := []

/-- Concrete store used to witness the export claims: one completed
player-level whose level has two associated prizes with distinct titles. -/
def exportStore : Store where
  players := [⟨1, none, none, 0⟩]
  boosts := []
  levels := [⟨1, "L", 0⟩]
  prizes := [⟨1, "P1"⟩, ⟨2, "P2"⟩]
  playerBoosts := []
  playerLevels := [⟨1, 1, some ⟨3, 0⟩, 100⟩]
  levelPrizes := [⟨1, 1⟩, ⟨1, 2⟩]
  playerPrizes := []

/-- Concrete store used to witness the boost claims: a one-entry boost
catalog and no player boosts yet. -/
def boostStore : Store where
  players := [⟨1, none, none, 0⟩]
  boosts := [⟨5, .SPEED, "ускорение"⟩]
  levels := []
  prizes := []
  playerBoosts := []
  playerLevels := []
  levelPrizes := []
  playerPrizes := []

/-- Concrete store used to witness the invariant claim: one player holding
one boost already. -/
def invStore : Store where
  players := [⟨1, none, none, 0⟩]
  boosts := [⟨5, .SPEED, "ускорение"⟩]
  levels := [⟨1, "L", 0⟩]
  prizes := []
  playerBoosts := [⟨1, 5, 2, ⟨0, 0⟩⟩]
  playerLevels := [⟨1, 1, none, 3⟩]
  levelPrizes := []
  playerPrizes := []

/-! ### Basic facts about `Player.login` -/

theorem login_last_login (p : Player) (now : DateTime) :
    (p.login now).last_login = some now := rfl

theorem login_points_of_newDay (p : Player) (now : DateTime)
    (h : newDay p.last_login now = true) :
    (p.login now).points = p.points + 10 := by
  unfold Player.login
  by_cases hf : p.first_login.isNone <;> simp [hf, h]

theorem login_points_of_not_newDay (p : Player) (now : DateTime)
    (h : newDay p.last_login now = false) :
    (p.login now).points = p.points := by
  unfold Player.login
  by_cases hf : p.first_login.isNone <;> simp [hf, h]

theorem login_first_login_isSome (p : Player) (now : DateTime) :
    (p.login now).first_login.isSome = true := by
  unfold Player.login
  by_cases hf : p.first_login.isNone <;>
    simp_all [newDay, Option.isNone_iff_eq_none, Option.isSome_iff_ne_none] <;>
    split <;> simp_all [Option.isSome_iff_ne_none]

theorem login_first_login_of_isSome (p : Player) (now : DateTime)
    (h : p.first_login.isSome = true) :
    (p.login now).first_login = p.first_login := by
  unfold Player.login
  have hf : p.first_login.isNone = false := by
    cases hc : p.first_login <;> simp_all
  simp [hf]
  split <;> rfl

/-- Same calendar date means the daily bonus is not due. -/
theorem newDay_same_date (t now : DateTime) (h : t.date = now.date) :
    newDay (some t) now = false := by
  simp [newDay, h]

/-- C3: calling `login` twice within the same UTC calendar day increases
`points` by exactly 10 in total: the first call, made with `last_login`
unset or dating from an earlier UTC day, adds the fixed bonus of 10, and the
second, same-day call adds nothing. -/
theorem c3_login_same_day_total_ten (p : Player) (now1 now2 : DateTime)
    (hfirst : newDay p.last_login now1 = true) (hday : now1.date = now2.date) :
    ((p.login now1).login now2).points = p.points + 10 := by
  have h2 : newDay (p.login now1).last_login now2 = false := by
    rw [login_last_login]
    exact newDay_same_date _ _ hday
  rw [login_points_of_not_newDay _ _ h2, login_points_of_newDay _ _ hfirst]

/-- Witness for C3 at a concrete player who has never logged in. -/
theorem c3_login_same_day_total_ten_witness :
    ((Player.login (Player.login ⟨1, none, none, 0⟩ ⟨5, 0⟩) ⟨5, 3⟩)).points = (0 : Int) + 10 :=
  c3_login_same_day_total_ten ⟨1, none, none, 0⟩ ⟨5, 0⟩ ⟨5, 3⟩ (by decide) (by decide)

/-- C9: a repeated `login` within the same UTC calendar day changes only
`last_login`; `points` and `first_login` are left as the first call left
them (the first call set `first_login` when it was unset, so the second
never touches it). -/
theorem c9_repeat_login_frame (p : Player) (now1 now2 : DateTime)
    (hday : now1.date = now2.date) :
    ((p.login now1).login now2).points = (p.login now1).points ∧
    ((p.login now1).login now2).first_login = (p.login now1).first_login ∧
    ((p.login now1).login now2).last_login = some now2 := by
  have h2 : newDay (p.login now1).last_login now2 = false := by
    rw [login_last_login]
    exact newDay_same_date _ _ hday
  exact ⟨login_points_of_not_newDay _ _ h2,
    login_first_login_of_isSome _ _ (login_first_login_isSome p now1),
    login_last_login _ _⟩

/-- Witness for C9 at a concrete player and two same-day instants. -/
theorem c9_repeat_login_frame_witness :
    ((Player.login (Player.login ⟨1, none, none, 0⟩ ⟨5, 0⟩) ⟨5, 3⟩)).points
        = (Player.login ⟨1, none, none, 0⟩ ⟨5, 0⟩).points ∧
    ((Player.login (Player.login ⟨1, none, none, 0⟩ ⟨5, 0⟩) ⟨5, 3⟩)).first_login
        = (Player.login ⟨1, none, none, 0⟩ ⟨5, 0⟩).first_login ∧
    ((Player.login (Player.login ⟨1, none, none, 0⟩ ⟨5, 0⟩) ⟨5, 3⟩)).last_login
        = some ⟨5, 3⟩ :=
  c9_repeat_login_frame ⟨1, none, none, 0⟩ ⟨5, 0⟩ ⟨5, 3⟩ (by decide)

/-! ### No-op cases of `give_prizes_for_level` -/

/-- C6: when the player's `PlayerLevel` row for the level exists but its
`completed` timestamp is null, the prize grant is a silent no-op: the store
is returned unchanged, so any number of repeated calls also leaves it
unchanged, and no error is possible (the operation is a total function). -/
theorem c6_incomplete_level_noop (s : Store) (pid lid : Nat) (now : DateTime)
    (pl : PlayerLevel)
    (hfind : s.playerLevels.find? (fun r => r.player_id == pid && r.level_id == lid) = some pl)
    (hcomp : pl.completed = none) :
    give_prizes_for_level s pid lid now = s := by
  unfold give_prizes_for_level
  rw [hfind]
  simp [hcomp]

/-- Witness for C6 at a concrete store whose one player-level row is not
completed. -/
theorem c6_incomplete_level_noop_witness :
    give_prizes_for_level emptyTitleStore 1 1 ⟨4, 0⟩ = emptyTitleStore :=
  c6_incomplete_level_noop emptyTitleStore 1 1 ⟨4, 0⟩ ⟨1, 1, none, 0⟩ (by decide) rfl

/-- C10: when the player has no `PlayerLevel` row for the requested level —
in particular when the level id exists in no catalog row at all — the prize
grant returns the store unchanged; the source checks only the composite-key
lookup and returns early, raising nothing. -/
theorem c10_missing_playerlevel_noop (s : Store) (pid lid : Nat) (now : DateTime)
    (hfind : s.playerLevels.find? (fun r => r.player_id == pid && r.level_id == lid) = none) :
    give_prizes_for_level s pid lid now = s := by
  unfold give_prizes_for_level
  rw [hfind]

/-- Witness for C10: the requested level id 99 appears neither in the
player's rows nor in the level catalog. -/
theorem c10_missing_playerlevel_noop_witness :
    give_prizes_for_level grantStore 1 99 ⟨4, 0⟩ = grantStore :=
  c10_missing_playerlevel_noop grantStore 1 99 ⟨4, 0⟩ (by decide)

/-! ### Boost accumulation -/

/-- C2: starting from a store with no `PlayerBoost` row for (p, b) and b in
the catalog, two `add_boost` calls with non-negative amounts both succeed
and leave exactly one row for (p, b), whose amount is the sum of the two
amounts — the second call increments in place, it neither overwrites nor
inserts a second row. -/
theorem c2_add_boost_additive_upsert (s : Store) (pid bid : Nat) (a1 a2 : Int)
    (now1 now2 : DateTime)
    (hcat : s.boosts.any (fun b => b.id == bid) = true)
    (hnone : s.playerBoosts.find? (fun pb => pb.player_id == pid && pb.boost_id == bid) = none)
    (h1 : 0 ≤ a1) (h2 : 0 ≤ a2) :
    ∃ s1 s2 : Store,
      add_boost s pid bid a1 now1 = .ok s1 ∧
      add_boost s1 pid bid a2 now2 = .ok s2 ∧
      s2.playerBoosts.filter (fun pb => pb.player_id == pid && pb.boost_id == bid)
        = [{ player_id := pid, boost_id := bid, amount := a1 + a2, created_at := now1 }] := by
  have hpredF : ∀ r ∈ s.playerBoosts, (r.player_id == pid && r.boost_id == bid) = false := by
    intro r hr
    simpa using List.find?_eq_none.mp hnone r hr
  have e1 : add_boost s pid bid a1 now1 = .ok { s with playerBoosts := s.playerBoosts ++ [⟨pid, bid, a1, now1⟩] } := by
    unfold add_boost
    simp only [hnone, hcat, if_true]
    rw [if_neg (not_lt.mpr h1)]
  have hfind1 : (s.playerBoosts ++ [(⟨pid, bid, a1, now1⟩ : PlayerBoost)]).find? (fun pb => pb.player_id == pid && pb.boost_id == bid) = some ⟨pid, bid, a1, now1⟩ := by
    rw [List.find?_append, hnone]
    simp [List.find?_cons]
  have hfr : ∀ r ∈ s.playerBoosts, (if r.player_id == pid && r.boost_id == bid then ({ r with amount := r.amount + a2 } : PlayerBoost) else r) = r := by
    intro r hr
    exact if_neg (by simp [hpredF r hr])
  have e2 : add_boost { s with playerBoosts := s.playerBoosts ++ [(⟨pid, bid, a1, now1⟩ : PlayerBoost)] } pid bid a2 now2 = .ok { s with playerBoosts := (s.playerBoosts ++ [(⟨pid, bid, a1, now1⟩ : PlayerBoost)]).map (fun r => if r.player_id == pid && r.boost_id == bid then { r with amount := r.amount + a2 } else r) } := by
    unfold add_boost
    simp only [hfind1]
    rw [if_neg (not_lt.mpr (add_nonneg h1 h2))]
  have hmapid : s.playerBoosts.map (fun r => if r.player_id == pid && r.boost_id == bid then ({ r with amount := r.amount + a2 } : PlayerBoost) else r) = s.playerBoosts := by
    rw [List.map_congr_left (fun a ha => (hfr a ha : _ = id a))]
    simp
  have e3 : ((s.playerBoosts ++ [(⟨pid, bid, a1, now1⟩ : PlayerBoost)]).map (fun r => if r.player_id == pid && r.boost_id == bid then { r with amount := r.amount + a2 } else r)).filter (fun pb => pb.player_id == pid && pb.boost_id == bid) = [{ player_id := pid, boost_id := bid, amount := a1 + a2, created_at := now1 }] := by
    rw [List.map_append, hmapid, List.filter_append]
    rw [List.filter_eq_nil_iff.mpr (fun r hr => by simp [hpredF r hr])]
    simp
  exact ⟨_, _, e1, e2, e3⟩

/-- Witness for C2: amounts 2 then 3 for the catalogued boost 5. -/
theorem c2_add_boost_additive_upsert_witness :
    ∃ s1 s2 : Store,
      add_boost boostStore 1 5 2 ⟨0, 0⟩ = .ok s1 ∧
      add_boost s1 1 5 3 ⟨0, 1⟩ = .ok s2 ∧
      s2.playerBoosts.filter (fun pb => pb.player_id == 1 && pb.boost_id == 5)
        = [{ player_id := 1, boost_id := 5, amount := 2 + 3, created_at := ⟨0, 0⟩ }] :=
  c2_add_boost_additive_upsert boostStore 1 5 2 3 ⟨0, 0⟩ ⟨0, 1⟩
    (by decide) (by decide) (by decide) (by decide)

/-- C5: on a well-formed store, `add_boost` for a boost id absent from the
catalog fails with NotFound and performs no mutation (the error result
carries no new state); the check is the FOREIGN KEY constraint the schema
declares on `player_boosts.boost_id`.  The amount is taken non-negative so
that only this constraint is at stake. -/
theorem c5_add_boost_unknown_boost (s : Store) (pid bid : Nat) (amount : Int)
    (now : DateTime) (hwf : WF s)
    (hmiss : ∀ b ∈ s.boosts, b.id ≠ bid) (_hamt : 0 ≤ amount) :
    add_boost s pid bid amount now = .error .notFound := by
  have hfind : s.playerBoosts.find?
      (fun pb => pb.player_id == pid && pb.boost_id == bid) = none := by
    rw [List.find?_eq_none]
    intro pb hpb hmatch
    obtain ⟨b, hb, hbid⟩ := hwf.pb_boost_fk pb hpb
    have heq : pb.boost_id = bid := by
      simp only [Bool.and_eq_true, beq_iff_eq] at hmatch
      exact hmatch.2
    exact hmiss b hb (hbid.trans heq)
  have hany : s.boosts.any (fun b => b.id == bid) = false := by
    rw [List.any_eq_false]
    intro b hb
    simpa using hmiss b hb
  unfold add_boost
  simp [hfind, hany]

/-- Witness for C5: boost id 9 is not in the one-entry catalog. -/
theorem c5_add_boost_unknown_boost_witness :
    add_boost boostStore 1 9 3 ⟨0, 0⟩ = .error .notFound :=
  c5_add_boost_unknown_boost boostStore 1 9 3 ⟨0, 0⟩
    ⟨by decide, by decide, by decide, by decide, by decide, by decide⟩
    (by decide) (by decide)

/-! ### Frame of the prize grant: only `playerPrizes` changes -/

theorem grantPrize_frame (pid : Nat) (now : DateTime) (st : Store) (pz : Prize) :
    (grantPrize pid now st pz).players = st.players ∧
    (grantPrize pid now st pz).boosts = st.boosts ∧
    (grantPrize pid now st pz).levels = st.levels ∧
    (grantPrize pid now st pz).prizes = st.prizes ∧
    (grantPrize pid now st pz).playerBoosts = st.playerBoosts ∧
    (grantPrize pid now st pz).playerLevels = st.playerLevels ∧
    (grantPrize pid now st pz).levelPrizes = st.levelPrizes := by
  unfold grantPrize
  split <;> exact ⟨rfl, rfl, rfl, rfl, rfl, rfl, rfl⟩

theorem foldl_grantPrize_frame (pid : Nat) (now : DateTime) (ps : List Prize) (st : Store) :
    (ps.foldl (grantPrize pid now) st).players = st.players ∧
    (ps.foldl (grantPrize pid now) st).boosts = st.boosts ∧
    (ps.foldl (grantPrize pid now) st).levels = st.levels ∧
    (ps.foldl (grantPrize pid now) st).prizes = st.prizes ∧
    (ps.foldl (grantPrize pid now) st).playerBoosts = st.playerBoosts ∧
    (ps.foldl (grantPrize pid now) st).playerLevels = st.playerLevels ∧
    (ps.foldl (grantPrize pid now) st).levelPrizes = st.levelPrizes := by
  induction ps generalizing st with
  | nil => exact ⟨rfl, rfl, rfl, rfl, rfl, rfl, rfl⟩
  | cons p t ih =>
      obtain ⟨a1, a2, a3, a4, a5, a6, a7⟩ := ih (grantPrize pid now st p)
      obtain ⟨b1, b2, b3, b4, b5, b6, b7⟩ := grantPrize_frame pid now st p
      exact ⟨a1.trans b1, a2.trans b2, a3.trans b3, a4.trans b4,
        a5.trans b5, a6.trans b6, a7.trans b7⟩

theorem give_frame (s : Store) (pid lid : Nat) (now : DateTime) :
    (give_prizes_for_level s pid lid now).players = s.players ∧
    (give_prizes_for_level s pid lid now).boosts = s.boosts ∧
    (give_prizes_for_level s pid lid now).levels = s.levels ∧
    (give_prizes_for_level s pid lid now).prizes = s.prizes ∧
    (give_prizes_for_level s pid lid now).playerBoosts = s.playerBoosts ∧
    (give_prizes_for_level s pid lid now).playerLevels = s.playerLevels ∧
    (give_prizes_for_level s pid lid now).levelPrizes = s.levelPrizes := by
  unfold give_prizes_for_level
  split
  · exact ⟨rfl, rfl, rfl, rfl, rfl, rfl, rfl⟩
  · split
    · exact ⟨rfl, rfl, rfl, rfl, rfl, rfl, rfl⟩
    · exact foldl_grantPrize_frame pid now _ s

/-! ### Preservation of the store invariants (claim C8) -/

/-- C8: every state reachable from an initial store by `login`, `add_boost`
with a non-negative amount, and the prize grant keeps non-negative
`PlayerBoost.amount` and `PlayerLevel.score` and at most one `PlayerBoost`
row per (player, boost) pair, provided the initial store satisfied them. -/
theorem c8_reachable_invariants (s0 s : Store) (h0 : Inv s0) (hr : Reachable s0 s) :
    Inv s := by
  induction hr with
  | refl => exact h0
  | step_login s1 pid now hr1 ih => exact ih
  | step_add_boost s1 s2 pid bid amount now hr1 hamt hok ih =>
      obtain ⟨iha, ihs, ihp⟩ := ih
      unfold add_boost at hok
      split at hok
      next pb hfind =>
        split at hok
        · exact absurd hok (by simp)
        · injection hok with h
          subst h
          refine ⟨?_, ihs, ?_⟩
          · intro r' hr'
            obtain ⟨r, hrmem, rfl⟩ := List.mem_map.mp hr'
            by_cases hc : (r.player_id == pid && r.boost_id == bid) = true
            · rw [if_pos hc]
              exact add_nonneg (iha r hrmem) hamt
            · rw [if_neg hc]
              exact iha r hrmem
          · rw [List.pairwise_map]
            refine ihp.imp ?_
            intro a b hab
            have ka : ∀ r : PlayerBoost,
                (if r.player_id == pid && r.boost_id == bid then ({ r with amount := r.amount + amount } : PlayerBoost) else r).player_id = r.player_id ∧
                (if r.player_id == pid && r.boost_id == bid then ({ r with amount := r.amount + amount } : PlayerBoost) else r).boost_id = r.boost_id := by
              intro r
              split <;> exact ⟨rfl, rfl⟩
            rcases hab with h | h
            · exact Or.inl (by rw [(ka a).1, (ka b).1]; exact h)
            · exact Or.inr (by rw [(ka a).2, (ka b).2]; exact h)
      next hfind =>
        split at hok
        · split at hok
          · exact absurd hok (by simp)
          · injection hok with h
            subst h
            refine ⟨?_, ihs, ?_⟩
            · intro r hrm
              rcases List.mem_append.mp hrm with hmem | hmem
              · exact iha r hmem
              · rw [List.mem_singleton.mp hmem]
                exact hamt
            · rw [List.pairwise_append]
              refine ⟨ihp, List.pairwise_singleton _ _, ?_⟩
              intro a ha b hb
              rw [List.mem_singleton.mp hb]
              have hnm := List.find?_eq_none.mp hfind a ha
              simp only [Bool.and_eq_true, beq_iff_eq, not_and] at hnm
              by_cases hpl : a.player_id = pid
              · exact Or.inr (hnm hpl)
              · exact Or.inl hpl
        · exact absurd hok (by simp)
  | step_grant s1 pid lid now hr1 ih =>
      obtain ⟨iha, ihs, ihp⟩ := ih
      obtain ⟨_, _, _, _, e5, e6, _⟩ := give_frame s1 pid lid now
      refine ⟨?_, ?_, ?_⟩
      · rw [e5]; exact iha
      · rw [e6]; exact ihs
      · rw [e5]; exact ihp

/-- Witness for C8: one login step away from a concrete store that already
holds a boost row. -/
theorem c8_reachable_invariants_witness : Inv (loginStore invStore 1 ⟨0, 0⟩) :=
  c8_reachable_invariants invStore (loginStore invStore 1 ⟨0, 0⟩)
    ⟨by decide, by decide, by decide⟩
    (Reachable.step_login invStore invStore 1 ⟨0, 0⟩ (Reachable.refl invStore))

/-! ### Counting and idempotence of the prize grant -/

theorem holdsPrize_mono (pid : Nat) (now : DateTime) (st : Store) (q : Prize) (x : Nat)
    (h : holdsPrize st pid x = true) :
    holdsPrize (grantPrize pid now st q) pid x = true := by
  unfold grantPrize
  split
  · exact h
  · unfold holdsPrize at h ⊢
    simp only [List.any_append, h, Bool.true_or]

theorem holdsPrize_foldl_mono (pid : Nat) (now : DateTime) (ps : List Prize) (st : Store)
    (x : Nat) (h : holdsPrize st pid x = true) :
    holdsPrize (ps.foldl (grantPrize pid now) st) pid x = true := by
  induction ps generalizing st with
  | nil => exact h
  | cons q t ih => exact ih _ (holdsPrize_mono pid now st q x h)

theorem holdsPrize_grantPrize_self (pid : Nat) (now : DateTime) (st : Store) (q : Prize) :
    holdsPrize (grantPrize pid now st q) pid q.id = true := by
  unfold grantPrize
  split
  next h => exact h
  next h =>
    unfold holdsPrize
    simp [List.any_append]

theorem holdsPrize_foldl_all (pid : Nat) (now : DateTime) (ps : List Prize) (st : Store) :
    ∀ q ∈ ps, holdsPrize (ps.foldl (grantPrize pid now) st) pid q.id = true := by
  induction ps generalizing st with
  | nil => intro q hq; simp at hq
  | cons p t ih =>
      intro q hq
      rcases List.mem_cons.mp hq with rfl | hq2
      · exact holdsPrize_foldl_mono pid now t _ q.id (holdsPrize_grantPrize_self pid now st q)
      · exact ih _ q hq2

theorem foldl_grantPrize_of_all_held (pid : Nat) (now : DateTime) (ps : List Prize)
    (st : Store) (h : ∀ q ∈ ps, holdsPrize st pid q.id = true) :
    ps.foldl (grantPrize pid now) st = st := by
  induction ps with
  | nil => rfl
  | cons p t ih =>
      have hp : grantPrize pid now st p = st := by
        unfold grantPrize
        rw [if_pos (h p (List.mem_cons_self _ _))]
      show t.foldl (grantPrize pid now) (grantPrize pid now st p) = st
      rw [hp]
      exact ih (fun q hq => h q (List.mem_cons_of_mem _ hq))

theorem foldl_grantPrize_length (pid : Nat) (now : DateTime) (ps : List Prize) :
    ∀ st : Store, ps.Pairwise (fun a b => a.id ≠ b.id) →
    (ps.foldl (grantPrize pid now) st).playerPrizes.length =
      st.playerPrizes.length + (ps.filter (fun q => !holdsPrize st pid q.id)).length := by
  induction ps with
  | nil => intro st _; simp
  | cons p t ih =>
      intro st hdis
      obtain ⟨hp, ht⟩ := List.pairwise_cons.mp hdis
      cases hb : holdsPrize st pid p.id with
      | true =>
          have hg : grantPrize pid now st p = st := by
            unfold grantPrize
            rw [if_pos hb]
          show (t.foldl (grantPrize pid now) (grantPrize pid now st p)).playerPrizes.length = _
          rw [hg, ih st ht, List.filter_cons]
          simp [hb]
      | false =>
          have hg : grantPrize pid now st p = { st with playerPrizes := st.playerPrizes ++ [⟨pid, p.id, now⟩] } := by
            unfold grantPrize
            exact if_neg (by simp [hb])
          have hcongr : ∀ q ∈ t,
              holdsPrize { st with playerPrizes := st.playerPrizes ++ [(⟨pid, p.id, now⟩ : PlayerPrize)] } pid q.id = holdsPrize st pid q.id := by
            intro q hq
            unfold holdsPrize
            simp only [List.any_append]
            have hrow : ([(⟨pid, p.id, now⟩ : PlayerPrize)].any (fun pp => pp.player_id == pid && pp.prize_id == q.id)) = false := by
              simp [hp q hq]
            rw [hrow, Bool.or_false]
          show (t.foldl (grantPrize pid now) (grantPrize pid now st p)).playerPrizes.length = _
          rw [hg, ih _ ht]
          have hfe : List.filter (fun q => !holdsPrize { st with playerPrizes := st.playerPrizes ++ [(⟨pid, p.id, now⟩ : PlayerPrize)] } pid q.id) t = List.filter (fun q => !holdsPrize st pid q.id) t := by
            exact List.filter_congr (fun q hq => by rw [hcongr q hq])
          rw [hfe, List.filter_cons]
          simp only [hb, Bool.not_false, if_true, List.length_cons, List.length_append,
            List.length_singleton, List.length_nil]
          omega

theorem levelPrizeList_pairwise_ne (s : Store) (lid : Nat) (hwf : WF s) :
    (levelPrizeList s lid).Pairwise (fun a b => a.id ≠ b.id) := by
  unfold levelPrizeList
  rw [List.pairwise_filterMap]
  have h1 : (s.levelPrizes.filter (fun lp => lp.level_id == lid)).Pairwise
      (fun a b => a.prize_id ≠ b.prize_id) := by
    refine (hwf.lp_uniq.filter _).imp_of_mem ?_
    intro a b ha hb hab
    have ha2 := (List.mem_filter.mp ha).2
    have hb2 := (List.mem_filter.mp hb).2
    simp only [beq_iff_eq] at ha2 hb2
    rcases hab with h | h
    · exact absurd (ha2.trans hb2.symm) h
    · exact h
  refine h1.imp ?_
  intro a b hab x hx y hy
  have hx2 : x.id = a.prize_id := by simpa using List.find?_some (Option.mem_def.mp hx)
  have hy2 : y.id = b.prize_id := by simpa using List.find?_some (Option.mem_def.mp hy)
  rw [hx2, hy2]
  exact hab

theorem filterMap_length_of_isSome {α β : Type} (f : α → Option β) (l : List α)
    (h : ∀ a ∈ l, (f a).isSome = true) :
    (l.filterMap f).length = l.length := by
  induction l with
  | nil => rfl
  | cons a t ih =>
      rw [List.filterMap_cons]
      obtain ⟨b, hb⟩ := Option.isSome_iff_exists.mp (h a (List.mem_cons_self _ _))
      simp only [hb, List.length_cons]
      rw [ih (fun x hx => h x (List.mem_cons_of_mem _ hx))]

theorem levelPrizeList_length (s : Store) (lid : Nat) (hwf : WF s) :
    (levelPrizeList s lid).length = (s.levelPrizes.filter (fun lp => lp.level_id == lid)).length := by
  unfold levelPrizeList
  refine filterMap_length_of_isSome _ _ ?_
  intro lp hlp
  obtain ⟨pz, hmem, hid⟩ := hwf.lp_prize_fk lp (List.mem_filter.mp hlp).1
  rw [List.find?_isSome]
  exact ⟨pz, hmem, by simp [hid]⟩

theorem levelPrizeList_not_held (s : Store) (lid pid : Nat)
    (hnone : ∀ lp ∈ s.levelPrizes, lp.level_id = lid → holdsPrize s pid lp.prize_id = false) :
    ∀ q ∈ levelPrizeList s lid, holdsPrize s pid q.id = false := by
  intro q hq
  unfold levelPrizeList at hq
  obtain ⟨lp, hlp, hfq⟩ := List.mem_filterMap.mp hq
  have hmem := List.mem_filter.mp hlp
  have hlid : lp.level_id = lid := by simpa using hmem.2
  have hid : q.id = lp.prize_id := by simpa using List.find?_some hfq
  rw [hid]
  exact hnone lp hmem.1 hlid

/-- On a completed level, the grant is the fold of `grantPrize` over the
associated prizes. -/
theorem give_unfold_completed (s : Store) (pid lid : Nat) (now : DateTime) (pl : PlayerLevel)
    (hfind : s.playerLevels.find? (fun r => r.player_id == pid && r.level_id == lid) = some pl)
    (hcompF : pl.completed.isNone = false) :
    give_prizes_for_level s pid lid now = (levelPrizeList s lid).foldl (grantPrize pid now) s := by
  unfold give_prizes_for_level
  rw [hfind]
  simp [hcompF]

/-- C1: on a well-formed store where the player's `PlayerLevel` row for the
level is completed and the player holds none of the level's associated
prizes, one grant call creates exactly one `PlayerPrize` row per associated
prize — N rows for N `LevelPrize` associations — and a second call with no
intervening state change creates nothing: it returns the state of the first
call unchanged. -/
theorem c1_prize_grant_exact_and_idempotent (s : Store) (pid lid : Nat)
    (now now2 : DateTime) (pl : PlayerLevel) (hwf : WF s)
    (hfind : s.playerLevels.find? (fun r => r.player_id == pid && r.level_id == lid) = some pl)
    (hcomp : pl.completed.isSome = true)
    (hnone : ∀ lp ∈ s.levelPrizes, lp.level_id = lid → holdsPrize s pid lp.prize_id = false) :
    (give_prizes_for_level s pid lid now).playerPrizes.length =
      s.playerPrizes.length + (s.levelPrizes.filter (fun lp => lp.level_id == lid)).length ∧
    give_prizes_for_level (give_prizes_for_level s pid lid now) pid lid now2 =
      give_prizes_for_level s pid lid now := by
  have hcompF : pl.completed.isNone = false := by
    rcases hc : pl.completed with _ | t
    · rw [hc] at hcomp
      simp at hcomp
    · simp
  have hgive := give_unfold_completed s pid lid now pl hfind hcompF
  constructor
  · rw [hgive, foldl_grantPrize_length pid now _ s (levelPrizeList_pairwise_ne s lid hwf)]
    have hfl : (levelPrizeList s lid).filter (fun q => !holdsPrize s pid q.id) = levelPrizeList s lid := by
      rw [List.filter_eq_self]
      intro q hq
      rw [levelPrizeList_not_held s lid pid hnone q hq]
      rfl
    rw [hfl, levelPrizeList_length s lid hwf]
  · obtain ⟨_, _, _, e4, _, e6, e7⟩ := give_frame s pid lid now
    have hfind2 : (give_prizes_for_level s pid lid now).playerLevels.find?
        (fun r => r.player_id == pid && r.level_id == lid) = some pl := by
      rw [e6]
      exact hfind
    have hlpl : levelPrizeList (give_prizes_for_level s pid lid now) lid = levelPrizeList s lid := by
      unfold levelPrizeList
      rw [e7, e4]
    rw [give_unfold_completed _ pid lid now2 pl hfind2 hcompF, hlpl, hgive]
    exact foldl_grantPrize_of_all_held pid now2 _ _ (holdsPrize_foldl_all pid now _ s)

/-- Witness for C1: the level with two associated prizes, completed, none
held yet. -/
theorem c1_prize_grant_exact_and_idempotent_witness :
    (give_prizes_for_level grantStore 1 1 ⟨1, 0⟩).playerPrizes.length =
      grantStore.playerPrizes.length + (grantStore.levelPrizes.filter (fun lp => lp.level_id == 1)).length ∧
    give_prizes_for_level (give_prizes_for_level grantStore 1 1 ⟨1, 0⟩) 1 1 ⟨2, 0⟩ =
      give_prizes_for_level grantStore 1 1 ⟨1, 0⟩ :=
  c1_prize_grant_exact_and_idempotent grantStore 1 1 ⟨1, 0⟩ ⟨2, 0⟩ ⟨1, 1, some ⟨0, 0⟩, 100⟩
    ⟨by decide, by decide, by decide, by decide, by decide, by decide⟩
    (by decide) (by decide) (by decide)

/-! ### The export projection on well-formed stores -/

theorem find?_eq_of_uniq (l : List Prize) (pz : Prize) (k : Nat)
    (hu : l.Pairwise (fun a b => a.id ≠ b.id)) (hmem : pz ∈ l) (hid : pz.id = k) :
    l.find? (fun z => z.id == k) = some pz := by
  have hsome : (l.find? (fun z => z.id == k)).isSome = true :=
    List.find?_isSome.mpr ⟨pz, hmem, by simp [hid]⟩
  obtain ⟨pz2, hpz2⟩ := Option.isSome_iff_exists.mp hsome
  have hmem2 := List.mem_of_find?_eq_some hpz2
  have hid2 : pz2.id = k := by simpa using List.find?_some hpz2
  rw [hpz2]
  by_cases heq : pz2 = pz
  · rw [heq]
  · have hsym : Symmetric (fun (a b : Prize) => a.id ≠ b.id) := fun a b h => h.symm
    exact absurd (hid2.trans hid.symm) ((hu.forall hsym) hmem2 hmem heq)

theorem exportRows_eq (s : Store) (l : List PlayerLevel)
    (hlev : ∀ pl ∈ l, ∃ lvl ∈ s.levels, lvl.id = pl.level_id)
    (hpr : ∀ lp ∈ s.levelPrizes, ∃ pz ∈ s.prizes, pz.id = lp.prize_id) :
    exportRows s l = some (l.map (exportRowOf s)) := by
  induction l with
  | nil => rfl
  | cons pl t ih =>
      obtain ⟨lvl, hlm, hlid⟩ := hlev pl (List.mem_cons_self _ _)
      have hsome : (s.levels.find? (fun z => z.id == pl.level_id)).isSome = true :=
        List.find?_isSome.mpr ⟨lvl, hlm, by simp [hlid]⟩
      obtain ⟨lvl2, hfind⟩ := Option.isSome_iff_exists.mp hsome
      have hlid2 : lvl2.id = pl.level_id := by simpa using List.find?_some hfind
      have iht := ih (fun x hx => hlev x (List.mem_cons_of_mem _ hx))
      simp only [exportRows, hfind]
      rw [hlid2]
      cases hfl : (s.levelPrizes.filter (fun lp => lp.level_id == pl.level_id)).head? with
      | none =>
          rw [iht]
          simp [exportRowOf, hfind, hfl]
      | some lp =>
          have hlpm : lp ∈ s.levelPrizes :=
            (List.mem_filter.mp (List.mem_of_mem_head? (Option.mem_def.mpr hfl))).1
          obtain ⟨pz, hpzm, hpzid⟩ := hpr lp hlpm
          have hpsome : (s.prizes.find? (fun z => z.id == lp.prize_id)).isSome = true :=
            List.find?_isSome.mpr ⟨pz, hpzm, by simp [hpzid]⟩
          obtain ⟨pz2, hpfind⟩ := Option.isSome_iff_exists.mp hpsome
          simp [exportRowOf, hfl, hpfind, iht, hfind]

/-- On a well-formed store, the export succeeds and produces one row per
`PlayerLevel` row, each given by `exportRowOf`. -/
theorem export_eq (s : Store) (hwf : WF s) :
    export_player_levels_to_csv s = some (s.playerLevels.map (exportRowOf s)) :=
  exportRows_eq s s.playerLevels hwf.pl_level_fk hwf.lp_prize_fk

/-- C7: on a well-formed store, each export row's `completed` field is the
boolean presence of the completion timestamp, and whenever the row's level
has at least one associated prize (in particular several), `prize_title` is
the title of the first associated prize in association insertion order. -/
theorem c7_export_completed_and_first_prize (s : Store) (hwf : WF s) :
    ∃ rows, export_player_levels_to_csv s = some rows ∧
      List.Forall₂ (fun (row : ExportRow) (pl : PlayerLevel) =>
        row.completed = pl.completed.isSome ∧
        ∀ lp rest, s.levelPrizes.filter (fun x => x.level_id == pl.level_id) = lp :: rest →
          ∀ pz ∈ s.prizes, pz.id = lp.prize_id → row.prize_title = pz.title)
        rows s.playerLevels := by
  refine ⟨_, export_eq s hwf, ?_⟩
  rw [List.forall₂_map_left_iff, List.forall₂_same]
  intro pl _
  refine ⟨rfl, ?_⟩
  intro lp rest hfl pz hpzmem hpzid
  have hfind := find?_eq_of_uniq s.prizes pz lp.prize_id hwf.prizes_uniq hpzmem hpzid
  simp [exportRowOf, hfl, hfind]

/-- Witness for C7 at a concrete store whose one level carries two
associated prizes. -/
theorem c7_export_completed_and_first_prize_witness :
    ∃ rows, export_player_levels_to_csv exportStore = some rows ∧
      List.Forall₂ (fun (row : ExportRow) (pl : PlayerLevel) =>
        row.completed = pl.completed.isSome ∧
        ∀ lp rest, exportStore.levelPrizes.filter (fun x => x.level_id == pl.level_id) = lp :: rest →
          ∀ pz ∈ exportStore.prizes, pz.id = lp.prize_id → row.prize_title = pz.title)
        rows exportStore.playerLevels :=
  c7_export_completed_and_first_prize exportStore
    ⟨by decide, by decide, by decide, by decide, by decide, by decide⟩

/-- C4 refuted as stated: on this well-formed store the only export row has
an empty `prize_title`, yet its level has a nonzero number of associated
prizes — the catalog prize attached to it simply has the empty string as
title, which the export cannot distinguish from "no prize". -/
theorem c4_counterexample :
    WF emptyTitleStore ∧
    export_player_levels_to_csv emptyTitleStore =
      some [{ player_id := 1, level_title := "L", completed := false, prize_title := "" }] ∧
    emptyTitleStore.playerLevels = [{ player_id := 1, level_id := 1, completed := none, score := 0 }] ∧
    emptyTitleStore.levelPrizes.filter (fun lp => lp.level_id == 1) ≠ [] :=
  ⟨⟨by decide, by decide, by decide, by decide, by decide, by decide⟩,
    by decide, by decide, by decide⟩

/-- C4 (amended): on a well-formed store the export succeeds with exactly
one data row per `PlayerLevel` row, and a row's `prize_title` is empty
whenever its level has zero associated prizes — both unconditionally; the
converse, `prize_title` empty only when the level has zero associated
prizes, holds provided every catalog prize title is nonempty. -/
theorem c4_export_rowcount_and_empty_title (s : Store) (hwf : WF s) :
    ∃ rows, export_player_levels_to_csv s = some rows ∧
      rows.length = s.playerLevels.length ∧
      List.Forall₂ (fun (row : ExportRow) (pl : PlayerLevel) =>
        (s.levelPrizes.filter (fun lp => lp.level_id == pl.level_id) = [] → row.prize_title = "") ∧
        ((∀ pz ∈ s.prizes, pz.title ≠ "") → row.prize_title = "" →
          s.levelPrizes.filter (fun lp => lp.level_id == pl.level_id) = []))
        rows s.playerLevels := by
  refine ⟨_, export_eq s hwf, by simp, ?_⟩
  rw [List.forall₂_map_left_iff, List.forall₂_same]
  intro pl _
  cases hfl : s.levelPrizes.filter (fun lp => lp.level_id == pl.level_id) with
  | nil => exact ⟨fun _ => by simp [exportRowOf, hfl], fun _ _ => rfl⟩
  | cons lp rest =>
      have hlpm : lp ∈ s.levelPrizes :=
        (List.mem_filter.mp (hfl ▸ List.mem_cons_self lp rest)).1
      obtain ⟨pz, hpzm, hpzid⟩ := hwf.lp_prize_fk lp hlpm
      have hfind := find?_eq_of_uniq s.prizes pz lp.prize_id hwf.prizes_uniq hpzm hpzid
      constructor
      · intro h
        exact absurd h (List.cons_ne_nil _ _)
      · intro htitle hempty
        have hpt : (exportRowOf s pl).prize_title = pz.title := by
          simp [exportRowOf, hfl, hfind]
        rw [hpt] at hempty
        exact absurd hempty (htitle pz hpzm)

/-- Witness for the amended C4 at a concrete store with nonempty prize
titles. -/
theorem c4_export_rowcount_and_empty_title_witness :
    ∃ rows, export_player_levels_to_csv exportStore = some rows ∧
      rows.length = exportStore.playerLevels.length ∧
      List.Forall₂ (fun (row : ExportRow) (pl : PlayerLevel) =>
        (exportStore.levelPrizes.filter (fun lp => lp.level_id == pl.level_id) = [] → row.prize_title = "") ∧
        ((∀ pz ∈ exportStore.prizes, pz.title ≠ "") → row.prize_title = "" →
          exportStore.levelPrizes.filter (fun lp => lp.level_id == pl.level_id) = []))
        rows exportStore.playerLevels :=
  c4_export_rowcount_and_empty_title exportStore
    ⟨by decide, by decide, by decide, by decide, by decide, by decide⟩

end Game
